import Mathlib

/-!
# Verification of the taskcluster-base exchange declaration / publishing core

Shallow embedding of `exchanges.js`: the `Exchanges` registry (declare,
configure, connect, reference) and the `Publisher` created by `connect`.
JavaScript strings are modelled as Lean `String`, JS numbers occurring in
routing-key declarations as `Int`, absent (`undefined`) object properties as
`Option.none`, and JS truthiness of the relevant option values explicitly.
Fallible code (JS `assert` / `throw`) is modelled with `Except`.
-/

namespace TcBase

/-- A JS value, used where the source distinguishes booleans from strings
(the statistics `error` column). -/
inductive JsVal where
  | jsBool (b : Bool)
  | jsStr (s : String)
deriving DecidableEq, Repr

/-- JS truthiness of an optional string: `undefined` and `""` are falsy. -/
def truthyS : Option String → Bool
  | none => false
  | some s => s ≠ ""

/-- JS truthiness of an optional number (`undefined` and `0` are falsy;
negative numbers are truthy). -/
def truthyI : Option Int → Bool
  | none => false
  | some n => n ≠ 0

/-- A value supplied for a routing-key field by `routingKeyBuilder`'s mapping:
a string, a number, or JS `null` (an absent property is `Option.none` at the
use site). -/
inductive RKValue where
  | str (s : String)
  | num (n : Int)
  | null
deriving DecidableEq, Repr

/-- A routing-key field as passed to `Exchanges.prototype.declare`
(raw declaration input; optional properties are `Option`). -/
structure RKFieldIn where
  name : String
  summary : Option String := none
  multipleWords : Option Bool := none
  required : Option Bool := none
  constant : Option String := none
  maxSize : Option Int := none
deriving DecidableEq, Repr

/-- A routing-key field as stored by a successful `declare`: `multipleWords`
and `required` have been normalised to booleans (lines 254-255) and `maxSize`
has been defaulted from the constant's length when absent (lines 272-281). -/
structure RKField where
  name : String
  summary : String
  multipleWords : Bool
  required : Bool
  constant : Option String
  maxSize : Int
deriving DecidableEq, Repr

/-- Errors raised (as `assert` failures) by `declare` and the `Exchanges`
constructor; the spec's `DeclarationError`. -/
inductive DeclErr where
  | missingTitle
  | missingDescription
  | dupKeyName (n : String)
  | missingSummary (n : String)
  | twoMultiWords (first second : String)
  | badMaxSize (n : String)
  | sizeExceeded
  | dupExchange (e : String)
  | dupName (n : String)
deriving DecidableEq, Repr

/-- Errors raised inside the routing-key encoding of a publish call
(`assert` failures at lines 76-85); the spec's `EncodingError`. -/
inductive EncodeErr where
  | nonString (field : String)
  | tooLong (field word : String)
  | containsDot (field word : String)
deriving DecidableEq, Repr

/-- `if (key.constant) { word = key.constant; }` (lines 66-68; truthiness:
an empty-string constant is falsy and does not override). -/
def applyConstant (key : RKField) (v : Option RKValue) : Option RKValue :=
  if truthyS key.constant then some (.str (key.constant.getD "")) else v

/-- `if (!key.required && (word === undefined || word === null))
{ word = '_'; }` (lines 69-71). -/
def applyPlaceholder (key : RKField) (w : Option RKValue) : Option RKValue :=
  if ¬ key.required ∧ (w = none ∨ w = some .null) then some (.str "_") else w

/-- `if (typeof(word) === 'number') { word = '' + word; }` (lines 73-75). -/
def numToStr : Option RKValue → Option RKValue
  | some (.num n) => some (.str (toString n))
  | w => w

/-- The three `assert`s at lines 76-85: the word must be a string, must fit
within `maxSize`, and may contain `.` only when `multipleWords` is set. -/
def checkWord (key : RKField) : Option RKValue → Except EncodeErr String
  | some (.str s) =>
      if ¬ ((s.length : Int) ≤ key.maxSize) then .error (.tooLong key.name s)
      else if ¬ key.multipleWords ∧ s.data.contains '.' then
        .error (.containsDot key.name s)
      else .ok s
  | _ => .error (.nonString key.name)

/-- Encode one routing-key word (`Publisher`, lines 64-87).  `v` is
`routingKey[key.name]` from the builder's mapping (`none` = absent). -/
def encodeWord (key : RKField) (v : Option RKValue) : Except EncodeErr String :=
  checkWord key (numToStr (applyPlaceholder key (applyConstant key v)))

/-- Encode all routing-key words in declared order
(`entry.routingKey.map(...)`, line 64; the first failing `assert` aborts). -/
def encodeWords : List RKField → (String → Option RKValue) →
    Except EncodeErr (List String)
  | [], _ => .ok []
  | k :: ks, m =>
    match encodeWord k (m k.name) with
    | .error e => .error e
    | .ok w =>
      match encodeWords ks m with
      | .error e => .error e
      | .ok ws => .ok (w :: ws)

/-- `[..].join('.')` (line 87). -/
def joinWords : List String → String
  | [] => ""
  | [w] => w
  | w :: ws => w ++ "." ++ joinWords ws

/-- Split a character list on a separator character; the semantics of JS
`String.prototype.split` with a single-character separator (so splitting the
empty string yields one empty segment). -/
def splitSep (sep : Char) : List Char → List (List Char)
  | [] => [[]]
  | c :: cs =>
    if c = sep then [] :: splitSep sep cs
    else
      match splitSep sep cs with
      | [] => [[c]]
      | w :: ws => (c :: w) :: ws

/-- JS `s.split('.')`. -/
def splitDot (s : String) : List String :=
  (splitSep '.' s.data).map fun cs => String.mk cs

/-! ## The registry: `Exchanges` (constructor, `configure`, `declare`) -/

/-- The effective `maxSize` of a raw field after the constant-length default
(lines 272-281): if `key.constant` is truthy and `key.maxSize` is falsy, the
constant's length is used; otherwise the raw `maxSize` (absent stays absent
and fails the type check at line 284). -/
def effMaxSize (k : RKFieldIn) : Option Int :=
  if truthyS k.constant ∧ ¬ truthyI k.maxSize then
    some ((k.constant.getD "").length : Int)
  else k.maxSize

/-- The stored form of a raw field, given its validated effective `maxSize`
and summary: booleans normalised per lines 254-255. -/
def normalizeField (k : RKFieldIn) (m : Int) (summ : String) : RKField :=
  { name := k.name
    summary := summ
    multipleWords := k.multipleWords.getD false
    required := k.required.getD false
    constant := k.constant
    maxSize := m }

/-- `normalizeField` with the values a successful `declare` necessarily used
(those defaults are only consulted in runs that would have failed). -/
def normFieldD (k : RKFieldIn) : RKField :=
  normalizeField k ((effMaxSize k).getD 0) (k.summary.getD "")

/-- `if (sizeLeft != 255) { sizeLeft -= 1; } sizeLeft -= key.maxSize;`
(lines 288-291): the budget after accounting one field of effective size
`m` — the separator byte is charged only when `sizeLeft` has moved off its
initial 255. -/
def stepSize (sizeLeft m : Int) : Int :=
  (if sizeLeft ≠ 255 then sizeLeft - 1 else sizeLeft) - m

/-- The `options.routingKey.forEach` validation loop of `declare`
(lines 244-294), with its three accumulators: the key names seen so far,
the remaining size budget `sizeLeft`, and the name of the first
`multipleWords` key.  Returns the normalised fields on success. -/
def checkKeys (names : List String) (sizeLeft : Int) (firstMW : Option String) :
    List RKFieldIn → Except DeclErr (List RKField)
  | [] => .ok []
  | k :: ks =>
    if names.contains k.name then .error (.dupKeyName k.name)
    else
      match k.summary with
      | none => .error (.missingSummary k.name)
      | some summ =>
        if k.multipleWords.getD false ∧ firstMW.isSome then
          .error (.twoMultiWords (firstMW.getD "") k.name)
        else
          match effMaxSize k with
          | none => .error (.badMaxSize k.name)
          | some m =>
            if m ≤ 0 then .error (.badMaxSize k.name)
            -- `assert(sizeLeft >= 0, "Combined routingKey cannot be larger
            --  than 255 including joining dots")`
            else if stepSize sizeLeft m < 0 then .error .sizeExceeded
            else
              match checkKeys (names ++ [k.name]) (stepSize sizeLeft m)
                  (if k.multipleWords.getD false then some k.name else firstMW)
                  ks with
              | .error e => .error e
              | .ok out => .ok (normalizeField k m summ :: out)

/-- How `routingKeyBuilder` may answer: a pre-joined string or an object
mapping field names to values (a partial map; `none` = property absent). -/
inductive RoutingKeyResult where
  | str (s : String)
  | mapping (m : String → Option RKValue)

/-- A declared exchange entry, as stored in `Exchanges._entries` after a
successful `declare` (and as snapshotted into a `Publisher`). `M` is the
message type, `A` the type of a publish call's argument tuple. -/
structure Entry (M A : Type) where
  exchange : String
  name : String
  title : String
  description : String
  schema : String
  routingKey : List RKField
  messageBuilder : A → M
  routingKeyBuilder : A → RoutingKeyResult
  CCBuilder : A → List String

/-- The input of `declare` (builders are total functions: the source only
asserts they are functions, which the typing makes automatic). -/
structure DeclIn (M A : Type) where
  exchange : String
  name : String
  title : String
  description : String
  schema : String
  routingKey : List RKFieldIn
  messageBuilder : A → M
  routingKeyBuilder : A → RoutingKeyResult
  CCBuilder : A → List String

/-- Registry-wide options (`Exchanges._options` after resolution). -/
structure ExOptions where
  exchangePrefix : String
  schemaPrefix : String
  durableExchanges : Bool
  title : Option String
  description : Option String

/-- Options as passed to the `Exchanges` constructor or to `configure`
(`undefined` properties modelled as `none`; `_.defaults` keeps a property of
the later source only where the earlier one is `undefined`). -/
structure ConfigureIn where
  exchangePrefix : Option String := none
  schemaPrefix : Option String := none
  durableExchanges : Option Bool := none
  title : Option String := none
  description : Option String := none

/-- `_.defaults({}, o, base)` restricted to the registry options. -/
def mergeOptions (o : ConfigureIn) (base : ExOptions) : ExOptions :=
  { exchangePrefix := o.exchangePrefix.getD base.exchangePrefix
    schemaPrefix := o.schemaPrefix.getD base.schemaPrefix
    durableExchanges := o.durableExchanges.getD base.durableExchanges
    title := match o.title with | some t => some t | none => base.title
    description := match o.description with
      | some d => some d
      | none => base.description }

/-- The state of an `Exchanges` registry instance. -/
structure ExchangesState (M A : Type) where
  entries : List (Entry M A)
  options : ExOptions

/-- The `Exchanges` constructor (lines 169-179): default options, the
title/description asserts, then `configure(options)`. -/
def mkExchanges (M A : Type) (o : ConfigureIn) :
    Except DeclErr (ExchangesState M A) :=
  let base : ExOptions :=
    { exchangePrefix := "", schemaPrefix := "", durableExchanges := true
      title := none, description := none }
  if ¬ truthyS o.title then .error .missingTitle
  else if ¬ truthyS o.description then .error .missingDescription
  else .ok { entries := [], options := mergeOptions o base }

/-- `Exchanges.prototype.configure` (lines 322-324). -/
def configureRun {M A : Type} (s : ExchangesState M A) (o : ConfigureIn) :
    ExchangesState M A :=
  { s with options := mergeOptions o s.options }

/-- The `exchange`/`name` uniqueness check against already-registered entries
(lines 309-315): per entry, the `exchange` assert runs before the `name`
assert. -/
def checkUnique {M A : Type} (d : DeclIn M A) :
    List (Entry M A) → Option DeclErr
  | [] => none
  | e :: es =>
    if e.exchange = d.exchange then some (.dupExchange e.exchange)
    else if e.name = d.name then some (.dupName e.name)
    else checkUnique d es

/-- `Exchanges.prototype.declare` (lines 221-319), JS-style: on an `assert`
failure the state is returned unchanged together with the error; on success
the validated entry is appended (`this._entries.push`, line 318, is the only
state modification and runs last). -/
def declareRun {M A : Type} (s : ExchangesState M A) (d : DeclIn M A) :
    ExchangesState M A × Option DeclErr :=
  match checkKeys [] 255 none d.routingKey with
  | .error e => (s, some e)
  | .ok keys =>
    match checkUnique d s.entries with
    | some e => (s, some e)
    | none =>
      ({ s with
          entries := s.entries ++
            [{ exchange := d.exchange, name := d.name, title := d.title
               description := d.description
               -- schema prefixing (lines 233-235;
               -- `if (this._options.schemaPrefix)`)
               schema := if s.options.schemaPrefix ≠ "" then
                   s.options.schemaPrefix ++ d.schema
                 else d.schema
               routingKey := keys
               messageBuilder := d.messageBuilder
               routingKeyBuilder := d.routingKeyBuilder
               CCBuilder := d.CCBuilder }] },
       none)

/-! ## `connect`, `reference` and the `Publisher` -/

/-- The effective exchange prefix computed by `connect` (lines 371-395): the
plain `exchangePrefix`, further prefixed with `exchange/<username>/` exactly
when `credentials.username` and `credentials.password` are both truthy. -/
def connectExchangePrefix (exchangePrefix : String)
    (username password : Option String) : String :=
  if truthyS username ∧ truthyS password then
    "exchange" ++ "/" ++ username.getD "" ++ "/" ++ exchangePrefix
  else exchangePrefix

/-- `connect`'s prefix computation including the entry assert (lines 361-363):
a connection string or a full username/password pair must be provided. -/
def connectPrefixChecked (exchangePrefix : String)
    (connectionString username password : Option String) :
    Except String String :=
  if ¬ (truthyS connectionString ∨ (truthyS username ∧ truthyS password)) then
    .error "ConnectionString or credentials must be provided"
  else .ok (connectExchangePrefix exchangePrefix username password)

/-- The effective exchange prefix computed by `reference` (lines 442-453):
prefixed with `exchange/<username>/` exactly when `credentials.username` is
truthy (no password is consulted). -/
def referenceExchangePrefix (exchangePrefix : String)
    (username : Option String) : String :=
  if truthyS username then
    "exchange" ++ "/" ++ username.getD "" ++ "/" ++ exchangePrefix
  else exchangePrefix

/-- Per-publisher statistics options (`options.drain` presence plus the
component/process tags; the drain itself is external I/O). -/
structure PubOptions where
  drain : Bool
  component : String
  process : String

/-- What `channel.publish` is called with (line 110-114); recording these is
the model of broker I/O. -/
structure BrokerPublish where
  exchange : String
  routingKey : String
  payload : String
  CC : List String
  persistent : Bool
  contentType : String
  contentEncoding : String
deriving DecidableEq, Repr

/-- One statistics observation as reported at lines 121-129 (the real-time
`duration` column is not modelled; `error` is whatever JS value the source
puts there). -/
structure Observation where
  component : String
  process : String
  routingKeys : Nat
  payloadSize : Nat
  exchange : String
  error : JsVal
deriving DecidableEq, Repr

/-- Result of one publish call. -/
inductive PubResult (E : Type) where
  | validationFailed (errors : E)
  | encodingFailed (e : EncodeErr)
  | brokerFailed
  | ok
deriving DecidableEq, Repr

/-- Everything observable about one publish call: its result, the broker
publishes performed, and the statistics observations emitted. -/
structure Outcome (E : Type) where
  result : PubResult E
  published : List BrokerPublish
  observations : List Observation
deriving DecidableEq, Repr

/-- Routing-key construction for one publish call (lines 62-90): a string
from the builder is used verbatim, a mapping is encoded per field. -/
def buildRoutingKey {M A : Type} (entry : Entry M A) (args : A) :
    Except EncodeErr String :=
  match entry.routingKeyBuilder args with
  | .str s => .ok s
  | .mapping m =>
    match encodeWords entry.routingKey m with
    | .error e => .error e
    | .ok ws => .ok (joinWords ws)

/-- One publish call on the method bound to `entry` (lines 41-141).
`check` is the external schema validator (`validator.check`: `none` = valid,
`some errs` = the structured errors), `stringify` is `JSON.stringify`,
`brokerErr` says whether the broker's confirm callback reports an error.
Validation (line 53) runs before routing-key encoding (line 63); on a
validation or encoding failure the call throws before `channel.publish`,
so nothing is published and no statistics are reported. -/
def publishOn {M A E : Type} (check : M → String → Option E)
    (stringify : M → String) (opts : PubOptions) (exchangePrefix : String)
    (entry : Entry M A) (args : A) (brokerErr : Bool) : Outcome E :=
  match check (entry.messageBuilder args) entry.schema with
  | some errs => ⟨.validationFailed errs, [], []⟩
  | none =>
    match buildRoutingKey entry args with
    | .error e => ⟨.encodingFailed e, [], []⟩
    | .ok rk =>
      ⟨if brokerErr then .brokerFailed else .ok,
       [⟨exchangePrefix ++ entry.exchange, rk,
         stringify (entry.messageBuilder args), entry.CCBuilder args,
         true, "application/json", "utf-8"⟩],
       if opts.drain then
         [⟨opts.component, opts.process, 1 + (entry.CCBuilder args).length,
           (stringify (entry.messageBuilder args)).utf8ByteSize,
           exchangePrefix ++ entry.exchange,
           .jsStr (if brokerErr then "true" else "false")⟩]
       else []⟩

/-- `_.cloneDeep` on the entry list: on immutable values a deep copy is the
value itself; what matters (and what the theorems use) is that the snapshot
is taken at `connect` time. -/
def cloneDeep {M A : Type} (entries : List (Entry M A)) : List (Entry M A) :=
  entries

/-- A `Publisher` as constructed at line 423: the connect-time entry
snapshot, the effective exchange prefix, and the statistics options. -/
structure Publisher (M A : Type) where
  entries : List (Entry M A)
  exchangePrefix : String
  opts : PubOptions

/-- The publisher produced by `connect` (lines 397-424): a deep copy of the
registry's entries at connect time and the prefix computed from the merged
options (call options override registry options, `_.defaults` at line 356). -/
def connectPublisher {M A : Type} (s : ExchangesState M A)
    (callPrefix : Option String) (username password : Option String)
    (opts : PubOptions) : Publisher M A :=
  { entries := cloneDeep s.entries
    exchangePrefix :=
      connectExchangePrefix (callPrefix.getD s.options.exchangePrefix)
        username password
    opts := opts }

/-- Invoke the publisher method named `n` (the per-entry closures attached at
lines 41-42): `none` when no declared entry carries that name. -/
def runPublisher {M A E : Type} (check : M → String → Option E)
    (stringify : M → String) (p : Publisher M A) (n : String) (args : A)
    (brokerErr : Bool) : Option (Outcome E) :=
  (p.entries.find? fun e => e.name == n).map fun e =>
    publishOn check stringify p.opts p.exchangePrefix e args brokerErr

/-! ## Registry evolution -/

/-- Registry states reachable from `s` by any sequence of `configure` calls
and `declare` calls (failed `declare`s included; they leave the state as it
was). -/
inductive Evolves {M A : Type} : ExchangesState M A → ExchangesState M A → Prop
  | refl (s : ExchangesState M A) : Evolves s s
  | configure (s s' : ExchangesState M A) (o : ConfigureIn) :
      Evolves s s' → Evolves s (configureRun s' o)
  | declare (s s' : ExchangesState M A) (d : DeclIn M A) :
      Evolves s s' → Evolves s (declareRun s' d).1

/-- Registry states reachable from a successful `Exchanges` constructor call
by any sequence of `configure` and `declare` calls. -/
inductive Reachable {M A : Type} : ExchangesState M A → Prop
  | init (o : ConfigureIn) (s : ExchangesState M A) :
      mkExchanges M A o = .ok s → Reachable s
  | configure (s : ExchangesState M A) (o : ConfigureIn) :
      Reachable s → Reachable (configureRun s o)
  | declare (s : ExchangesState M A) (d : DeclIn M A) :
      Reachable s → Reachable (declareRun s d).1

/-- The per-declaration well-formedness invariant of C10: distinct field
names, at most one `multipleWords` field, positive `maxSize`s, and the
size budget (sum of `maxSize`s plus one separator per field after the
first) within 255. -/
def entryInv {M A : Type} (e : Entry M A) : Prop :=
  (e.routingKey.map RKField.name).Nodup ∧
  (e.routingKey.filter fun k => k.multipleWords).length ≤ 1 ∧
  (∀ k ∈ e.routingKey, 0 < k.maxSize) ∧
  (e.routingKey.map RKField.maxSize).sum + ((e.routingKey.length - 1 : Nat) : Int)
    ≤ 255

/-- The registry invariant: every stored declaration is well-formed. -/
def stateInv {M A : Type} (s : ExchangesState M A) : Prop :=
  ∀ e ∈ s.entries, entryInv e

/-- The final `sizeLeft` after the validation loop charges a list of
effective field sizes against an initial budget (`stepSize` per field). -/
def costFrom : Int → List Int → Int
  | sl, [] => sl
  | sl, m :: ms => costFrom (stepSize sl m) ms

/-- The size budget of a raw routing-key declaration: the sum of the fields'
effective `maxSize`s plus one separator byte per field after the first. -/
def inputBudget (ks : List RKFieldIn) : Int :=
  (ks.map fun k => (effMaxSize k).getD 0).sum + ((ks.length - 1 : Nat) : Int)

/-! ## Concrete sample objects (used to exercise the theorems) -/

/-- The raw `provisionerId` field of end-to-end scenario A. -/
def sampleField : RKFieldIn :=
  { name := "provisionerId", summary := some "provisioner id"
    required := some true, maxSize := some 22 }

/-- The `task-defined` declaration of end-to-end scenario A. -/
def sampleDecl : DeclIn String Unit :=
  { exchange := "task-defined", name := "taskDefined"
    title := "Task Defined", description := "a task has been defined"
    schema := "http://schemas.example/task-defined.json"
    routingKey := [sampleField]
    messageBuilder := fun _ => "message-body"
    routingKeyBuilder := fun _ =>
      .mapping fun n => if n = "provisionerId" then some (.str "aws-prov") else none
    CCBuilder := fun _ => [] }

/-- Constructor options with a truthy title and description. -/
def sampleOpts : ConfigureIn :=
  { title := some "Sample Exchanges", description := some "sample registry" }

/-- The registry state produced by `new Exchanges(sampleOpts)`. -/
def sampleState0 : ExchangesState String Unit :=
  { entries := []
    options := mergeOptions sampleOpts
      { exchangePrefix := "", schemaPrefix := "", durableExchanges := true
        title := none, description := none } }

/-- The registry state after declaring scenario A's exchange. -/
def sampleState1 : ExchangesState String Unit :=
  (declareRun sampleState0 sampleDecl).1

/-- Scenario A's entry in its stored (validated) form. -/
def sampleEntryDirect : Entry String Unit :=
  { exchange := "task-defined", name := "taskDefined"
    title := "Task Defined", description := "a task has been defined"
    schema := "http://schemas.example/task-defined.json"
    routingKey := [{ name := "provisionerId", summary := "provisioner id"
                     multipleWords := false, required := true
                     constant := none, maxSize := 22 }]
    messageBuilder := fun _ => "message-body"
    routingKeyBuilder := fun _ =>
      .mapping fun n => if n = "provisionerId" then some (.str "aws-prov") else none
    CCBuilder := fun _ => [] }

/-- A raw field declared with a constant and no `maxSize`
(end-to-end scenario B). -/
def constFieldIn : RKFieldIn :=
  { name := "version", summary := some "version", constant := some "v1" }

/-- Two dot-free stored fields for the encode/split round trip. -/
def c7Fields : List RKField :=
  [⟨"a", "s", false, true, none, 5⟩, ⟨"b", "s", false, false, none, 5⟩]

/-- A mapping supplying a value for `a` only. -/
def c7Map : String → Option RKValue :=
  fun n => if n = "a" then some (.str "x") else none

/-- A second declaration reusing scenario A's `exchange` string
(end-to-end scenario D). -/
def dupDecl : DeclIn String Unit :=
  { exchange := "task-defined", name := "taskDefinedAgain"
    title := "t", description := "d", schema := "http://s"
    routingKey := []
    messageBuilder := fun _ => "m"
    routingKeyBuilder := fun _ => .str "x"
    CCBuilder := fun _ => [] }

/-- A declaration whose summed `maxSize` budget (200 + 1 + 55 = 256)
exceeds 255. -/
def overBudgetDecl : DeclIn String Unit :=
  { exchange := "too-big", name := "tooBig"
    title := "t", description := "d", schema := "http://s"
    routingKey :=
      [{ name := "a", summary := some "s", maxSize := some 200 },
       { name := "b", summary := some "s", maxSize := some 55 }]
    messageBuilder := fun _ => "m"
    routingKeyBuilder := fun _ => .str "x"
    CCBuilder := fun _ => [] }

/-! ## Lemmas about splitting and joining -/

theorem splitSep_of_not_mem {sep : Char} {w : List Char} (h : sep ∉ w) :
    splitSep sep w = [w] := by
  induction w with
  | nil => rfl
  | cons c cs ih =>
    have hc : ¬ c = sep := fun hcs => h (hcs ▸ List.mem_cons_self c cs)
    have hcs : sep ∉ cs := fun hm => h (List.mem_cons_of_mem _ hm)
    simp [splitSep, hc, ih hcs]

theorem splitSep_append {sep : Char} {w rest : List Char} (h : sep ∉ w) :
    splitSep sep (w ++ sep :: rest) = w :: splitSep sep rest := by
  induction w with
  | nil => simp [splitSep]
  | cons c cs ih =>
    have hc : ¬ c = sep := fun hcs => h (hcs ▸ List.mem_cons_self c cs)
    have hcs : sep ∉ cs := fun hm => h (List.mem_cons_of_mem _ hm)
    simp only [List.cons_append, splitSep, hc, if_false, List.append_eq,
      ih hcs]

theorem joinWords_data_cons {w x : String} {xs : List String} :
    (joinWords (w :: x :: xs)).data =
      w.data ++ '.' :: (joinWords (x :: xs)).data := by
  show (w ++ "." ++ joinWords (x :: xs)).data = _
  simp [String.data_append]

/-- Joining dot-free words and splitting on `.` restores the word list,
provided there is at least one word. -/
theorem splitDot_joinWords {ws : List String} (hne : ws ≠ [])
    (hdot : ∀ w ∈ ws, ('.' : Char) ∉ w.data) :
    splitDot (joinWords ws) = ws := by
  induction ws with
  | nil => exact absurd rfl hne
  | cons w ws ih =>
    cases ws with
    | nil =>
      have hw : ('.' : Char) ∉ w.data := hdot w (List.mem_cons_self w [])
      simp [splitDot, joinWords, splitSep_of_not_mem hw]
    | cons x xs =>
      have hw : ('.' : Char) ∉ w.data := hdot w (List.mem_cons_self _ _)
      have hrec : splitDot (joinWords (x :: xs)) = x :: xs :=
        ih (by simp) (fun y hy => hdot y (List.mem_cons_of_mem _ hy))
      simp only [splitDot, joinWords_data_cons, splitSep_append hw,
        List.map_cons] at *
      simp [hrec]

/-! ## Lemmas about the per-word encoding -/

theorem checkWord_ok_noDot {k : RKField} {v : Option RKValue} {w : String}
    (hmw : k.multipleWords = false) (h : checkWord k v = .ok w) :
    w.data.contains '.' = false := by
  unfold checkWord at h
  split at h
  · split at h
    · exact absurd h (by simp)
    · split at h
      · exact absurd h (by simp)
      · rename_i s hlen hd
        simp only [hmw, Bool.false_eq_true, not_false_iff, true_and,
          Decidable.not_not] at hd
        cases h
        simpa using hd
  · exact absurd h (by simp)

theorem applyPlaceholder_str {k : RKField} {s : String} :
    applyPlaceholder k (some (.str s)) = some (.str s) := by
  simp [applyPlaceholder]

theorem encodeWord_ok_noDot {k : RKField} {v : Option RKValue} {w : String}
    (hmw : k.multipleWords = false) (h : encodeWord k v = .ok w) :
    w.data.contains '.' = false :=
  checkWord_ok_noDot hmw h

theorem checkWord_ok_eq {k : RKField} {s w : String}
    (h : checkWord k (some (.str s)) = .ok w) : w = s := by
  have h' : (if ¬ ((s.length : Int) ≤ k.maxSize) then
        (Except.error (EncodeErr.tooLong k.name s) : Except EncodeErr String)
      else if ¬ k.multipleWords ∧ s.data.contains '.' then
        .error (.containsDot k.name s)
      else .ok s) = .ok w := h
  split at h'
  · exact absurd h' (by simp)
  · split at h'
    · exact absurd h' (by simp)
    · cases h'; rfl

theorem encodeWord_const {k : RKField} {v : Option RKValue} {w : String}
    (hc : truthyS k.constant = true) (h : encodeWord k v = .ok w) :
    w = k.constant.getD "" := by
  unfold encodeWord at h
  rw [show applyConstant k v = some (.str (k.constant.getD "")) from by
        simp [applyConstant, hc],
      applyPlaceholder_str] at h
  exact checkWord_ok_eq h

theorem encodeWords_forall₂ {ks : List RKField} {m : String → Option RKValue}
    {ws : List String} (h : encodeWords ks m = .ok ws) :
    List.Forall₂ (fun k w => encodeWord k (m k.name) = .ok w) ks ws := by
  induction ks generalizing ws with
  | nil =>
    unfold encodeWords at h
    cases h
    exact List.Forall₂.nil
  | cons k ks ih =>
    unfold encodeWords at h
    split at h
    · exact absurd h (by simp)
    · split at h
      · exact absurd h (by simp)
      · cases h
        rename_i hw _ _ hws
        exact List.Forall₂.cons hw (ih hws)

theorem encodeWords_ok_length {ks : List RKField} {m : String → Option RKValue}
    {ws : List String} (h : encodeWords ks m = .ok ws) :
    ws.length = ks.length :=
  ((encodeWords_forall₂ h).length_eq).symm

/-- The placeholder rule as the code implements it: an optional field whose
constant is falsy encodes to `"_"` when its value is absent (`undefined`) or
`null` — and only then. -/
theorem encodeWord_placeholder {k : RKField} {v : Option RKValue}
    (hreq : k.required = false) (hc : truthyS k.constant = false)
    (hmax : 0 < k.maxSize) (hv : v = none ∨ v = some .null) :
    encodeWord k v = .ok "_" := by
  unfold encodeWord
  rw [show applyConstant k v = v from by simp [applyConstant, hc]]
  rw [show applyPlaceholder k v = some (.str "_") from by
        simp [applyPlaceholder, hreq, hv]]
  show checkWord k (some (.str "_")) = .ok "_"
  have hlen : ((("_" : String).length : Int) ≤ k.maxSize) := by
    have h1 : (("_" : String).length : Int) = 1 := by decide
    omega
  have hdot : (("_" : String).data.contains '.') = false := by decide
  have hred : (if ¬ ((("_" : String).length : Int) ≤ k.maxSize) then
        (Except.error (EncodeErr.tooLong k.name "_") : Except EncodeErr String)
      else if ¬ k.multipleWords ∧ ("_" : String).data.contains '.' then
        .error (.containsDot k.name "_")
      else .ok "_") = .ok "_" := by
    rw [if_neg (by simpa using hlen), if_neg (by simp [hdot])]
  exact hred

/-! ## Lemmas about the `declare` routing-key validation loop -/

/-- Inversion of a successful `checkKeys` step: the facts every branch of the
loop body establishes before the recursive call. -/
theorem checkKeys_ok_inv {k : RKFieldIn} {ks : List RKFieldIn}
    {names : List String} {sl : Int} {fmw : Option String}
    {out : List RKField} (h : checkKeys names sl fmw (k :: ks) = .ok out) :
    ∃ summ m out',
      k.summary = some summ ∧ effMaxSize k = some m ∧
      names.contains k.name = false ∧
      ¬ (k.multipleWords.getD false ∧ fmw.isSome) ∧
      0 < m ∧
      0 ≤ stepSize sl m ∧
      checkKeys (names ++ [k.name]) (stepSize sl m)
        (if k.multipleWords.getD false then some k.name else fmw) ks
        = .ok out' ∧
      out = normalizeField k m summ :: out' := by
  unfold checkKeys at h
  split at h
  · exact absurd h (by simp)
  · rename_i hname
    split at h
    · exact absurd h (by simp)
    · rename_i summ hsum
      split at h
      · exact absurd h (by simp)
      · rename_i htw
        split at h
        · exact absurd h (by simp)
        · rename_i m heff
          split at h
          · exact absurd h (by simp)
          · rename_i hm
            split at h
            · exact absurd h (by simp)
            · rename_i hsz
              split at h
              · exact absurd h (by simp)
              · rename_i out' hrec
                cases h
                exact ⟨summ, m, out', hsum, heff,
                  by simpa using hname, htw, by omega, by omega, hrec, rfl⟩

/-- A successful `checkKeys` returns exactly the normalised input fields, in
order. -/
theorem checkKeys_ok_shape {ks : List RKFieldIn} {names : List String}
    {sl : Int} {fmw : Option String} {out : List RKField}
    (h : checkKeys names sl fmw ks = .ok out) : out = ks.map normFieldD := by
  induction ks generalizing names sl fmw out with
  | nil => unfold checkKeys at h; cases h; rfl
  | cons k ks ih =>
    obtain ⟨summ, m, out', hsum, heff, -, -, -, -, hrec, rfl⟩ :=
      checkKeys_ok_inv h
    rw [ih hrec]
    simp [normFieldD, heff, hsum]

/-- Every field stored by a successful `checkKeys` has a positive
`maxSize`. -/
theorem checkKeys_ok_pos {ks : List RKFieldIn} {names : List String}
    {sl : Int} {fmw : Option String} {out : List RKField}
    (h : checkKeys names sl fmw ks = .ok out) :
    ∀ f ∈ out, 0 < f.maxSize := by
  induction ks generalizing names sl fmw out with
  | nil => unfold checkKeys at h; cases h; simp
  | cons k ks ih =>
    obtain ⟨summ, m, out', -, -, -, -, hm, -, hrec, rfl⟩ := checkKeys_ok_inv h
    intro f hf
    rcases List.mem_cons.mp hf with rfl | hf'
    · exact hm
    · exact ih hrec f hf'

/-- The names stored by a successful `checkKeys` are distinct and disjoint
from the accumulated `keyNames`. -/
theorem checkKeys_ok_names {ks : List RKFieldIn} {names : List String}
    {sl : Int} {fmw : Option String} {out : List RKField}
    (h : checkKeys names sl fmw ks = .ok out) :
    (out.map RKField.name).Nodup ∧ ∀ n ∈ out.map RKField.name, n ∉ names := by
  induction ks generalizing names sl fmw out with
  | nil => unfold checkKeys at h; cases h; simp
  | cons k ks ih =>
    obtain ⟨summ, m, out', -, -, hname, -, -, -, hrec, rfl⟩ :=
      checkKeys_ok_inv h
    obtain ⟨hnd, hdisj⟩ := ih hrec
    have hnotin : (normalizeField k m summ).name ∉ out'.map RKField.name :=
      fun hmem => (hdisj _ hmem) (by simp [normalizeField])
    refine ⟨?_, ?_⟩
    · rw [List.map_cons]
      exact List.nodup_cons.mpr ⟨hnotin, hnd⟩
    · intro n hn
      simp only [List.map_cons, List.mem_cons] at hn
      rcases hn with rfl | hn'
      · show (normalizeField k m summ).name ∉ names
        simpa [normalizeField] using hname
      · intro hmem
        exact (hdisj n hn') (List.mem_append_left _ hmem)

/-- At most one stored field has `multipleWords`, counting a multi-word key
already seen (`firstMultiWordKey`). -/
theorem checkKeys_ok_mw {ks : List RKFieldIn} {names : List String}
    {sl : Int} {fmw : Option String} {out : List RKField}
    (h : checkKeys names sl fmw ks = .ok out) :
    (out.filter fun f => f.multipleWords).length
      ≤ if fmw.isSome then 0 else 1 := by
  induction ks generalizing names sl fmw out with
  | nil => unfold checkKeys at h; cases h; simp
  | cons k ks ih =>
    obtain ⟨summ, m, out', -, -, -, htw, -, -, hrec, rfl⟩ := checkKeys_ok_inv h
    by_cases hmw : k.multipleWords.getD false = true
    · have hfm : fmw.isSome = false := by
        cases hfm : fmw.isSome
        · rfl
        · exact absurd ⟨hmw, hfm⟩ htw
      rw [if_pos hmw] at hrec
      have hcount := ih hrec
      simp only [Option.isSome_some, if_true] at hcount
      have hhead : (normalizeField k m summ).multipleWords = true := by
        simpa [normalizeField] using hmw
      simp only [hfm, Bool.false_eq_true, if_false, List.filter_cons, hhead,
        if_true, List.length_cons]
      omega
    · have hhead : ¬ ((normalizeField k m summ).multipleWords = true) := by
        simpa [normalizeField] using hmw
      rw [if_neg hmw] at hrec
      have hcount := ih hrec
      simp only [List.filter_cons, hhead, if_false]
      exact hcount

/-! ## Lemmas about the size budget -/

theorem checkKeys_ok_cost {ks : List RKFieldIn} {names : List String}
    {sl : Int} {fmw : Option String} {out : List RKField}
    (h : checkKeys names sl fmw ks = .ok out) (hsl : 0 ≤ sl) :
    0 ≤ costFrom sl (out.map RKField.maxSize) := by
  induction ks generalizing names sl fmw out with
  | nil => unfold checkKeys at h; cases h; simpa [costFrom] using hsl
  | cons k ks ih =>
    obtain ⟨summ, m, out', -, -, -, -, -, hsz, hrec, rfl⟩ := checkKeys_ok_inv h
    have hrest := ih hrec hsz
    simpa [costFrom, normalizeField] using hrest

theorem costFrom_lt {ms : List Int} {sl : Int} (hsl : sl < 255)
    (hpos : ∀ m ∈ ms, 0 < m) :
    costFrom sl ms = sl - (ms.sum + ms.length) := by
  induction ms generalizing sl with
  | nil => simp [costFrom]
  | cons m ms ih =>
    have hm : 0 < m := hpos m (List.mem_cons_self _ _)
    have h1 : sl ≠ 255 := by omega
    have hstep : stepSize sl m = sl - 1 - m := by simp [stepSize, h1]
    rw [show costFrom sl (m :: ms) = costFrom (stepSize sl m) ms from rfl,
      hstep, ih (by omega) (fun x hx => hpos x (List.mem_cons_of_mem _ hx))]
    simp only [List.sum_cons, List.length_cons]
    push_cast
    ring

theorem costFrom_255 {ms : List Int} (hpos : ∀ m ∈ ms, 0 < m)
    (hne : ms ≠ []) :
    costFrom 255 ms = 255 - (ms.sum + ms.length - 1) := by
  cases ms with
  | nil => exact absurd rfl hne
  | cons m ms =>
    have hm : 0 < m := hpos m (List.mem_cons_self _ _)
    have hstep : stepSize 255 m = 255 - m := by simp [stepSize]
    rw [show costFrom 255 (m :: ms) = costFrom (stepSize 255 m) ms from rfl,
      hstep,
      costFrom_lt (by omega) (fun x hx => hpos x (List.mem_cons_of_mem _ hx))]
    simp only [List.sum_cons, List.length_cons]
    push_cast
    ring

theorem costFrom_le {ms : List Int} {sl : Int} (hpos : ∀ m ∈ ms, 0 < m)
    (h255 : sl ≤ 255) : costFrom sl ms ≤ sl := by
  induction ms generalizing sl with
  | nil => simp [costFrom]
  | cons m ms ih =>
    have hm : 0 < m := hpos m (List.mem_cons_self _ _)
    have hstep : stepSize sl m ≤ sl - 1 := by
      unfold stepSize; split <;> omega
    have := ih (fun x hx => hpos x (List.mem_cons_of_mem _ hx))
      (show stepSize sl m ≤ 255 by omega)
    calc costFrom sl (m :: ms) = costFrom (stepSize sl m) ms := rfl
      _ ≤ stepSize sl m := this
      _ ≤ sl := by omega

/-- A successfully validated routing key fits the 255-byte budget, counting
one separator per field after the first. -/
theorem checkKeys_budget {ks : List RKFieldIn} {out : List RKField}
    (h : checkKeys [] 255 none ks = .ok out) :
    (out.map RKField.maxSize).sum + ((out.length - 1 : Nat) : Int) ≤ 255 := by
  have hpos : ∀ f ∈ out, 0 < f.maxSize := checkKeys_ok_pos h
  have hcost := checkKeys_ok_cost h (by norm_num)
  cases out with
  | nil => simp
  | cons f fs =>
    have hpos' : ∀ x ∈ (f :: fs).map RKField.maxSize, 0 < x := by
      intro x hx
      obtain ⟨g, hg, rfl⟩ := List.mem_map.mp hx
      exact hpos g hg
    rw [costFrom_255 hpos' (by simp)] at hcost
    have hlen : ((f :: fs).map RKField.maxSize).length = fs.length + 1 := by
      simp
    rw [hlen] at hcost
    have hcast : (((f :: fs).length - 1 : Nat) : Int) = (fs.length : Int) := by
      simp
    rw [hcast]
    omega

/-- If all effective sizes are positive and the budget is not yet
overdrawn, the validation loop never reports `sizeExceeded` (it may still
fail for a different reason). -/
theorem checkKeys_not_size {ks : List RKFieldIn} {names : List String}
    {sl : Int} {fmw : Option String}
    (hpos : ∀ k ∈ ks, 0 < (effMaxSize k).getD 0)
    (hcost : 0 ≤ costFrom sl (ks.map fun k => (effMaxSize k).getD 0))
    (h255 : sl ≤ 255) :
    checkKeys names sl fmw ks ≠ .error .sizeExceeded := by
  induction ks generalizing names sl fmw with
  | nil => unfold checkKeys; simp
  | cons k ks ih =>
    unfold checkKeys
    split
    · simp
    · split
      · simp
      · split
        · simp
        · split
          · simp
          · rename_i summ hsum htw m heff
            split
            · simp
            · rename_i hm
              have hmeq : (effMaxSize k).getD 0 = m := by rw [heff]; rfl
              have hrest : 0 ≤ costFrom (stepSize sl m)
                  (ks.map fun k => (effMaxSize k).getD 0) := by
                rw [show costFrom sl ((k :: ks).map fun k =>
                      (effMaxSize k).getD 0)
                    = costFrom (stepSize sl ((effMaxSize k).getD 0))
                        (ks.map fun k => (effMaxSize k).getD 0) from rfl,
                  hmeq] at hcost
                exact hcost
              have hposrest : ∀ x ∈ ks, 0 < (effMaxSize x).getD 0 :=
                fun x hx => hpos x (List.mem_cons_of_mem _ hx)
              have hstep255 : stepSize sl m ≤ 255 := by
                unfold stepSize
                have := hpos k (List.mem_cons_self _ _)
                rw [hmeq] at this
                split <;> omega
              have hstep0 : 0 ≤ stepSize sl m := by
                have hle : costFrom (stepSize sl m)
                    (ks.map fun k => (effMaxSize k).getD 0) ≤ stepSize sl m :=
                  costFrom_le (by
                    intro x hx
                    obtain ⟨g, hg, rfl⟩ := List.mem_map.mp hx
                    exact hposrest g hg) hstep255
                omega
              rw [if_neg (by omega : ¬ stepSize sl m < 0)]
              split
              · rename_i e hrec
                intro hcontra
                have he : e = DeclErr.sizeExceeded := by
                  simpa using hcontra
                exact (ih hposrest hrest hstep255) (he ▸ hrec)
              · simp

/-! ## Lemmas about `declare`, `configure` and registry evolution -/

/-- A failed `declare` leaves the registry untouched: every state
modification in the source comes after all the validation (`push` is
last). -/
theorem declareRun_fail_state {M A : Type} {s : ExchangesState M A}
    {d : DeclIn M A} {s₂ : ExchangesState M A} {err : DeclErr}
    (h : declareRun s d = (s₂, some err)) : s₂ = s := by
  unfold declareRun at h
  split at h
  · cases h; rfl
  · split at h
    · cases h; rfl
    · simp at h

/-- A successful `declare` appends exactly one entry, built from the
validated keys and the (possibly prefixed) schema. -/
theorem declareRun_ok_inv {M A : Type} {s : ExchangesState M A}
    {d : DeclIn M A} {s' : ExchangesState M A}
    (h : declareRun s d = (s', none)) :
    ∃ keys, checkKeys [] 255 none d.routingKey = .ok keys ∧
      s'.entries = s.entries ++
        [{ exchange := d.exchange, name := d.name, title := d.title
           description := d.description
           schema := if s.options.schemaPrefix ≠ "" then
               s.options.schemaPrefix ++ d.schema
             else d.schema
           routingKey := keys
           messageBuilder := d.messageBuilder
           routingKeyBuilder := d.routingKeyBuilder
           CCBuilder := d.CCBuilder }] := by
  unfold declareRun at h
  split at h
  · simp at h
  · rename_i keys hk
    split at h
    · simp at h
    · cases h
      exact ⟨keys, hk, rfl⟩

/-- Whatever `declare` does, the prior entries survive as a prefix. -/
theorem declareRun_keeps_entries {M A : Type} (s : ExchangesState M A)
    (d : DeclIn M A) : s.entries <+: (declareRun s d).1.entries := by
  cases hres : declareRun s d with
  | mk s₂ oerr =>
    cases oerr with
    | none =>
      obtain ⟨keys, -, hent⟩ := declareRun_ok_inv hres
      exact ⟨_, hent.symm⟩
    | some err =>
      rw [show ((s₂, some err) :
            ExchangesState M A × Option DeclErr).1 = s₂ from rfl,
        declareRun_fail_state hres]

/-- Registry evolution preserves every already-stored entry (in place). -/
theorem evolves_keeps_entries {M A : Type} {s s' : ExchangesState M A}
    (h : Evolves s s') : s.entries <+: s'.entries := by
  induction h with
  | refl => exact List.prefix_refl _
  | configure s' o h ih => simpa [configureRun] using ih
  | declare s' d h ih => exact ih.trans (declareRun_keeps_entries _ _)

/-- Only the routing-key loop can produce `sizeExceeded`; the entry
uniqueness check reports duplicate errors. -/
theorem checkUnique_ne_size {M A : Type} {d : DeclIn M A}
    {es : List (Entry M A)} :
    checkUnique d es ≠ some DeclErr.sizeExceeded := by
  induction es with
  | nil => simp [checkUnique]
  | cons e es ih =>
    unfold checkUnique
    split
    · simp
    · split
      · simp
      · exact ih

/-- If `declare` reports `sizeExceeded`, the routing-key loop did. -/
theorem declareRun_sizeExceeded {M A : Type} {s : ExchangesState M A}
    {d : DeclIn M A} (h : (declareRun s d).2 = some DeclErr.sizeExceeded) :
    checkKeys [] 255 none d.routingKey = .error DeclErr.sizeExceeded := by
  unfold declareRun at h
  split at h
  · rename_i e hk
    simp only at h
    cases h
    exact hk
  · split at h
    · rename_i hu
      simp only at h
      exact absurd (h ▸ hu) checkUnique_ne_size
    · simp at h

/-- A `declare` that does not fail validated its routing key. -/
theorem declareRun_none_checkKeys {M A : Type} {s : ExchangesState M A}
    {d : DeclIn M A} (h : (declareRun s d).2 = none) :
    ∃ keys, checkKeys [] 255 none d.routingKey = .ok keys := by
  unfold declareRun at h
  split at h
  · simp at h
  · rename_i keys hk
    exact ⟨keys, hk⟩

/-- The registry invariant holds in every reachable state. -/
theorem reachable_stateInv {M A : Type} {s : ExchangesState M A}
    (h : Reachable s) : stateInv s := by
  induction h with
  | init o s hmk =>
    unfold mkExchanges at hmk
    split at hmk
    · simp at hmk
    · split at hmk
      · simp at hmk
      · cases hmk
        intro e he
        simp at he
  | configure s₀ o h ih =>
    intro e he
    exact ih e he
  | declare s₀ d h ih =>
    cases hres : declareRun s₀ d with
    | mk s₂ oerr =>
      cases oerr with
      | some err =>
        show stateInv s₂
        rw [declareRun_fail_state hres]
        exact ih
      | none =>
        obtain ⟨keys, hk, hent⟩ := declareRun_ok_inv hres
        intro e he
        rw [hent] at he
        rcases List.mem_append.mp he with hold | hnew
        · exact ih e hold
        · have he' := List.mem_singleton.mp hnew
          subst he'
          refine ⟨(checkKeys_ok_names hk).1, ?_, checkKeys_ok_pos hk,
            checkKeys_budget hk⟩
          have := checkKeys_ok_mw hk
          simpa using this

/-! ## The claims -/

/-- C1: for every declared exchange entry and every publish call on its
method, if the built message fails schema validation then the call fails
with the validation error carrying the validator's structured errors, and
no `channel.publish` happens for that invocation (nor any statistics
point). -/
theorem C1_validation_blocks_publish {M A E : Type}
    (check : M → String → Option E) (stringify : M → String)
    (opts : PubOptions) (pfx : String) (entry : Entry M A) (args : A)
    (brokerErr : Bool) (errs : E)
    (h : check (entry.messageBuilder args) entry.schema = some errs) :
    publishOn check stringify opts pfx entry args brokerErr
      = ⟨.validationFailed errs, [], []⟩ := by
  unfold publishOn
  rw [h]

theorem C1_witness :
    ((fun (_ : String) (_ : String) => some "bad") "message-body"
        sampleEntryDirect.schema = some "bad") ∧
    publishOn (fun (_ : String) (_ : String) => some "bad") id
        ⟨true, "queue", "server"⟩ "pfx-" sampleEntryDirect () false
      = ⟨.validationFailed "bad", [], []⟩ :=
  ⟨rfl, C1_validation_blocks_publish _ _ _ _ _ _ _ _ rfl⟩

/-- C2: a `Publisher` built by `connect` works on the connect-time snapshot
of the registry's declarations (`_.cloneDeep`): its publish methods are a
function of the connect-time state only, and any later `configure`/`declare`
sequence only ever appends to the registry's entry list, leaving every
previously stored declaration in place. -/
theorem C2_publisher_snapshot_frozen {M A E : Type}
    (check : M → String → Option E) (stringify : M → String)
    (s s' : ExchangesState M A) (h : Evolves s s')
    (callPrefix username password : Option String) (opts : PubOptions)
    (n : String) (args : A) (brokerErr : Bool) :
    s.entries <+: s'.entries ∧
    runPublisher check stringify
        (connectPublisher s callPrefix username password opts) n args brokerErr
      = (s.entries.find? fun e => e.name == n).map fun e =>
          publishOn check stringify opts
            (connectExchangePrefix (callPrefix.getD s.options.exchangePrefix)
              username password) e args brokerErr :=
  ⟨evolves_keeps_entries h, rfl⟩

theorem C2_witness :
    sampleState0.entries <+: sampleState1.entries ∧
    runPublisher (fun (_ : String) (_ : String) => (none : Option String)) id
        (connectPublisher sampleState0 none none none ⟨false, "c", "p"⟩)
        "taskDefined" () false
      = (sampleState0.entries.find? fun e => e.name == "taskDefined").map
          fun e => publishOn (fun _ _ => none) id ⟨false, "c", "p"⟩
            (connectExchangePrefix
              ((none : Option String).getD sampleState0.options.exchangePrefix)
              none none) e () false :=
  C2_publisher_snapshot_frozen _ id sampleState0 sampleState1
    (Evolves.declare sampleState0 sampleState0 sampleDecl
      (Evolves.refl sampleState0)) none none none ⟨false, "c", "p"⟩
    "taskDefined" () false

/-- C3: a declaration whose effective `maxSize`s (constant-length default
applied) plus one separator per field after the first exceed 255 always
makes `declare` fail, and when the budget is within 255 (with the data
model's positive sizes) the size check never fires — a failure, if any, has
a different reason. -/
theorem C3_size_budget {M A : Type} (s : ExchangesState M A) (d : DeclIn M A)
    (hdef : ∀ k ∈ d.routingKey, (effMaxSize k).isSome = true) :
    (255 < inputBudget d.routingKey → (declareRun s d).2.isSome = true) ∧
    ((∀ k ∈ d.routingKey, 0 < (effMaxSize k).getD 0) →
      inputBudget d.routingKey ≤ 255 →
      (declareRun s d).2 ≠ some DeclErr.sizeExceeded) := by
  constructor
  · intro hover
    by_contra hnone
    have h2 : (declareRun s d).2 = none := by
      cases h2 : (declareRun s d).2
      · rfl
      · rw [h2] at hnone; simp at hnone
    obtain ⟨keys, hk⟩ := declareRun_none_checkKeys h2
    have hshape := checkKeys_ok_shape hk
    have hbud := checkKeys_budget hk
    have hmap : keys.map RKField.maxSize
        = d.routingKey.map fun k => (effMaxSize k).getD 0 := by
      rw [hshape, List.map_map]
      rfl
    have hlen : keys.length = d.routingKey.length := by
      rw [hshape, List.length_map]
    rw [hmap, hlen] at hbud
    unfold inputBudget at hover
    omega
  · intro hpos hbud hcontra
    have hk := declareRun_sizeExceeded hcontra
    have hpos' : ∀ x ∈ d.routingKey.map (fun k => (effMaxSize k).getD 0),
        0 < x := by
      intro x hx
      obtain ⟨g, hg, rfl⟩ := List.mem_map.mp hx
      exact hpos g hg
    have hcost : 0 ≤ costFrom 255
        (d.routingKey.map fun k => (effMaxSize k).getD 0) := by
      cases hd : d.routingKey with
      | nil => simp [costFrom]
      | cons k ks =>
        rw [← hd]
        have hne : d.routingKey.map (fun k => (effMaxSize k).getD 0) ≠ [] := by
          rw [hd]; simp
        rw [costFrom_255 hpos' hne, List.length_map]
        unfold inputBudget at hbud
        have hlen1 : 1 ≤ d.routingKey.length := by rw [hd]; simp
        omega
    exact (checkKeys_not_size hpos hcost (by norm_num)) hk

theorem C3_witness :
    (∀ k ∈ overBudgetDecl.routingKey, (effMaxSize k).isSome = true) ∧
    (255 : Int) < inputBudget overBudgetDecl.routingKey ∧
    (declareRun sampleState0 overBudgetDecl).2.isSome = true :=
  ⟨by decide, by decide,
    (C3_size_budget sampleState0 overBudgetDecl (by decide)).1 (by decide)⟩

/-- C4: end-to-end scenario A — declaring exchange `task-defined` with the
single field `provisionerId` (maxSize 22, required) succeeds, and publishing
with provisionerId `"aws-prov"` hands the broker the routing key
`"aws-prov"`. -/
theorem C4_scenarioA :
    (declareRun sampleState0 sampleDecl).2 = none ∧
    ((runPublisher (fun (_ : String) (_ : String) => (none : Option String))
        id (connectPublisher sampleState1 none none none ⟨false, "c", "p"⟩)
        "taskDefined" () false).map fun o =>
          o.published.map BrokerPublish.routingKey)
      = some ["aws-prov"] := by
  constructor
  · rfl
  · rfl

/-- C5: a field declared with a non-empty constant and no `maxSize` gets the
constant's length as its effective `maxSize`, and whenever a routing key is
successfully encoded for that declaration, the word at the field's declared
position is the constant, whatever value the mapping supplied. -/
theorem C5_constant_maxSize_default {ks : List RKFieldIn} {out : List RKField}
    {c : String} {m : String → Option RKValue} {words : List String} {i : Nat}
    (hi : i < ks.length) (hc : c ≠ "")
    (hconst : (ks.get ⟨i, hi⟩).constant = some c)
    (hnomax : (ks.get ⟨i, hi⟩).maxSize = none)
    (hok : checkKeys [] 255 none ks = .ok out)
    (henc : encodeWords out m = .ok words) :
    (out.get? i).map RKField.maxSize = some (c.length : Int) ∧
    words.get? i = some c := by
  have hshape := checkKeys_ok_shape hok
  have heff : effMaxSize (ks.get ⟨i, hi⟩) = some (c.length : Int) := by
    unfold effMaxSize
    rw [hconst, hnomax]
    simp [truthyS, truthyI, hc]
  subst hshape
  have hf₂ := encodeWords_forall₂ henc
  constructor
  · have hik : i < (ks.map normFieldD).length := by simpa using hi
    rw [List.get?_eq_get hik]
    have hgetk : (ks.map normFieldD).get ⟨i, hik⟩
        = normFieldD (ks.get ⟨i, hi⟩) := by
      simp [List.get_map]
    rw [hgetk,
      show (some (normFieldD (ks.get ⟨i, hi⟩))).map RKField.maxSize
        = some (normFieldD (ks.get ⟨i, hi⟩)).maxSize from rfl,
      show (normFieldD (ks.get ⟨i, hi⟩)).maxSize
        = (effMaxSize (ks.get ⟨i, hi⟩)).getD 0 from rfl,
      heff]
    rfl
  · have hik : i < (ks.map normFieldD).length := by simpa using hi
    have hiw : i < words.length := by
      rw [← hf₂.length_eq]
      simpa using hi
    have hR := hf₂.get hik hiw
    have hgetk : (ks.map normFieldD).get ⟨i, hik⟩
        = normFieldD (ks.get ⟨i, hi⟩) := by
      simp [List.get_map]
    rw [hgetk] at hR
    have hconst2 : ks[i].constant = some c := hconst
    have htr : truthyS (normFieldD (ks.get ⟨i, hi⟩)).constant = true := by
      simp [normFieldD, normalizeField, truthyS, hconst2, hc]
    have hw := encodeWord_const htr hR
    rw [List.get?_eq_get hiw, hw]
    simp [normFieldD, normalizeField, hconst2]

theorem C5_witness :
    (([⟨"version", "version", false, false, some "v1", (2 : Int)⟩] :
        List RKField).get? 0).map RKField.maxSize
      = some (("v1" : String).length : Int) ∧
    (["v1"] : List String).get? 0 = some "v1" :=
  @C5_constant_maxSize_default [constFieldIn]
    [⟨"version", "version", false, false, some "v1", (2 : Int)⟩] "v1"
    (fun _ => some (.str "ignored")) ["v1"] 0 (by decide) (by decide)
    rfl rfl rfl rfl

/-- C6 counterexample: a declarable optional field (required = false, no
constant) whose supplied value is the *empty string* encodes to the empty
segment, not to the placeholder `"_"` — the source substitutes `_` only for
`undefined`/`null` (strict equality at line 69), so the claim's
"empty or absent" is wrong for the empty string. -/
theorem C6_counterexample :
    checkKeys [] 255 none
        [{ name := "workerGroup", summary := some "wg", maxSize := some 5 }]
      = .ok [⟨"workerGroup", "wg", false, false, none, 5⟩] ∧
    encodeWord ⟨"workerGroup", "wg", false, false, none, 5⟩
        (some (.str "")) = .ok "" ∧
    ¬ (encodeWord ⟨"workerGroup", "wg", false, false, none, 5⟩
        (some (.str "")) = .ok "_") := by
  refine ⟨rfl, rfl, ?_⟩
  intro h
  exact absurd (Except.ok.inj h) (by decide)

/-- C6 (amended): for every declared field with `required = false` and a
falsy constant, and every publish mapping in which that field's value is
absent (`undefined`) or `null`, the encoded segment is the placeholder
`"_"` (an empty-string value, by contrast, stays the empty segment). -/
theorem C6_placeholder_on_absent (k : RKField) (v : Option RKValue)
    (hreq : k.required = false) (hc : truthyS k.constant = false)
    (hmax : 0 < k.maxSize) (hv : v = none ∨ v = some RKValue.null) :
    encodeWord k v = .ok "_" :=
  encodeWord_placeholder hreq hc hmax hv

theorem C6_witness :
    encodeWord ⟨"workerGroup", "wg", false, false, none, 5⟩ none
      = .ok "_" :=
  C6_placeholder_on_absent _ none rfl rfl (by decide) (Or.inl rfl)

/-- C7 counterexample: a declaration with an *empty* routing-key list is
accepted by `declare`, its encoded routing key is the empty string, and
JS `"".split('.')` yields one (empty) segment — not zero segments as the
claim requires for the zero-field declaration. -/
theorem C7_counterexample :
    checkKeys [] 255 none ([] : List RKFieldIn) = .ok ([] : List RKField) ∧
    encodeWords ([] : List RKField) (fun _ => none) = .ok ([] : List String) ∧
    ([] : List RKField).length = 0 ∧
    joinWords ([] : List String) = "" ∧
    (splitDot "").length = 1 :=
  ⟨rfl, rfl, rfl, rfl, rfl⟩

/-- C7 (amended): for every declaration with at least one routing-key field,
none of them multi-word, and every successfully encoded publish mapping,
splitting the routing key on `.` restores exactly one segment per declared
field, in order, each being that field's encoded word. -/
theorem C7_roundtrip {ks : List RKField} {m : String → Option RKValue}
    {words : List String} (hne : ks ≠ [])
    (hmw : ∀ k ∈ ks, k.multipleWords = false)
    (henc : encodeWords ks m = .ok words) :
    splitDot (joinWords words) = words ∧ words.length = ks.length ∧
    ∀ i (hik : i < ks.length) (hiw : i < words.length),
      encodeWord (ks.get ⟨i, hik⟩) (m (ks.get ⟨i, hik⟩).name)
        = .ok (words.get ⟨i, hiw⟩) := by
  have hf₂ := encodeWords_forall₂ henc
  have hlen : words.length = ks.length := hf₂.length_eq.symm
  have hdots : ∀ w ∈ words, ('.' : Char) ∉ w.data := by
    intro w hw
    obtain ⟨⟨i, hiw⟩, rfl⟩ := List.mem_iff_get.mp hw
    have hik : i < ks.length := by omega
    have hR := hf₂.get hik hiw
    have hnod := encodeWord_ok_noDot (hmw _ (ks.get_mem i hik)) hR
    simpa using hnod
  have hwne : words ≠ [] := by
    intro hnil
    rw [hnil] at hlen
    exact hne (List.eq_nil_of_length_eq_zero hlen.symm)
  exact ⟨splitDot_joinWords hwne hdots, hlen, fun i hik hiw => hf₂.get hik hiw⟩

theorem C7_witness :
    splitDot (joinWords ["x", "_"]) = ["x", "_"] ∧
    (["x", "_"] : List String).length = c7Fields.length :=
  ⟨(@C7_roundtrip c7Fields c7Map ["x", "_"] (by decide) (by decide) rfl).1,
   (@C7_roundtrip c7Fields c7Map ["x", "_"] (by decide) (by decide) rfl).2.1⟩

/-- C8 counterexample: with a connection string supplied, a username but no
password, `connect` computes the plain prefix while `reference` prepends
`exchange/<username>/` — the two computations disagree. -/
theorem C8_counterexample :
    connectPrefixChecked "p/" (some "amqp://localhost") (some "u") none
      = .ok "p/" ∧
    referenceExchangePrefix "p/" (some "u") = "exchange/u/p/" ∧
    ("p/" : String) ≠ "exchange/u/p/" := by
  refine ⟨rfl, rfl, ?_⟩
  decide

/-- C8 (amended): `connect` prepends `exchange/<username>/` exactly when
username *and* password are both truthy, `reference` exactly when the
username is truthy; the two effective prefixes agree for every option set
in which a truthy username comes with a truthy password (in particular
whenever full credentials or no credentials are supplied). -/
theorem C8_prefix_agreement (exchangePrefix : String)
    (connStr username password : Option String) (p : String)
    (hup : truthyS username = true → truthyS password = true)
    (hok : connectPrefixChecked exchangePrefix connStr username password
      = .ok p) :
    p = referenceExchangePrefix exchangePrefix username := by
  unfold connectPrefixChecked at hok
  split at hok
  · simp at hok
  · cases hok
    unfold connectExchangePrefix referenceExchangePrefix
    by_cases hu : truthyS username = true
    · rw [if_pos ⟨hu, hup hu⟩, if_pos hu]
    · rw [if_neg fun hand => hu hand.1, if_neg hu]

theorem C8_witness :
    (truthyS (some "u") = true → truthyS (some "pw") = true) ∧
    connectPrefixChecked "p/" none (some "u") (some "pw")
      = .ok "exchange/u/p/" ∧
    ("exchange/u/p/" : String) = referenceExchangePrefix "p/" (some "u") :=
  ⟨fun _ => rfl, rfl,
    C8_prefix_agreement "p/" none (some "u") (some "pw") "exchange/u/p/"
      (fun _ => rfl) rfl⟩

/-- C9 counterexample: the statistics point of a successful publish carries
`error` as the *string* `'false'` (`err ? 'true' : 'false'`, line 128), not
a boolean as the claim states. -/
theorem C9_counterexample :
    ((publishOn (fun (_ : String) (_ : String) => (none : Option String)) id
        ⟨true, "queue", "server"⟩ "pfx-" sampleEntryDirect ()
        false).observations.map Observation.error) = [JsVal.jsStr "false"] ∧
    JsVal.jsStr "false" ≠ JsVal.jsBool true ∧
    JsVal.jsStr "false" ≠ JsVal.jsBool false := by
  refine ⟨rfl, ?_, ?_⟩ <;> decide

/-- C9 (amended): with a statistics drain configured, a publish call emits
exactly one observation — with `routingKeys = 1 + |CC|`, `payloadSize` the
serialized message's byte length, `exchange` the prefixed exchange name and
`error` the string `'true'`/`'false'` according to whether the broker
reported an error — precisely when validation and routing-key encoding
succeed; a call failing validation or encoding emits none. -/
theorem C9_statistics {M A E : Type} (check : M → String → Option E)
    (stringify : M → String) (component process : String) (pfx : String)
    (entry : Entry M A) (args : A) (brokerErr : Bool) :
    (publishOn check stringify ⟨true, component, process⟩ pfx entry args
        brokerErr).observations =
      match check (entry.messageBuilder args) entry.schema,
          buildRoutingKey entry args with
      | none, .ok _ =>
        [⟨component, process, 1 + (entry.CCBuilder args).length,
          (stringify (entry.messageBuilder args)).utf8ByteSize,
          pfx ++ entry.exchange,
          .jsStr (if brokerErr then "true" else "false")⟩]
      | _, _ => [] := by
  unfold publishOn
  cases check (entry.messageBuilder args) entry.schema with
  | some errs => rfl
  | none =>
    cases buildRoutingKey entry args with
    | error e => rfl
    | ok rk => rfl

/-- C10: in every registry state reachable by `configure` calls and
(successful or failed) `declare` calls, every stored declaration has
pairwise-distinct field names, at most one `multipleWords` field, positive
`maxSize`s and a size budget within 255; and a failing `declare` leaves the
stored declaration list unchanged. -/
theorem C10_invariant {M A : Type} {s : ExchangesState M A}
    (h : Reachable s) :
    stateInv s ∧
    ∀ (d : DeclIn M A) (s₂ : ExchangesState M A) (err : DeclErr),
      declareRun s d = (s₂, some err) → s₂.entries = s.entries :=
  ⟨reachable_stateInv h, fun _ _ _ hf =>
    congrArg ExchangesState.entries (declareRun_fail_state hf)⟩

theorem C10_witness :
    stateInv sampleState1 ∧
    (declareRun sampleState1 dupDecl).1.entries = sampleState1.entries :=
  ⟨(C10_invariant (Reachable.declare sampleState0 sampleDecl
      (Reachable.init sampleOpts sampleState0 rfl))).1,
   (C10_invariant (Reachable.declare sampleState0 sampleDecl
      (Reachable.init sampleOpts sampleState0 rfl))).2 dupDecl
     (declareRun sampleState1 dupDecl).1
     (DeclErr.dupExchange "task-defined") rfl⟩

end TcBase
